import Mathlib

/-!
Shallow embedding of the custodial crypto-withdrawal saga activities in
`src/temporal_tron.py`, and proofs about them.

Modelling conventions:
* `Decimal` amounts become `ℚ` (exact rational arithmetic, as Python's
  `Decimal` is exact on the operations used here).
* A database table becomes a `List` of row records; a SQL `UPDATE ... WHERE`
  becomes a `List.map` that rewrites the matching rows; `scalar_one_or_none`
  becomes `List.find?` (the schema declares `address` and the wallet's
  `user_id` unique, so first-match equals the unique match).
* An activity that raises becomes a function into `Except`; the state it
  would have committed is part of the returned value.  For the selection
  loop, which commits one sub-transaction per iteration, the final pool is
  returned next to the `Except` result because those commits survive the
  final `raise`.
* The column the selection code reads is `InnerAddress.usdt_balance`
  (the declared column is named `amount`; the query attribute is kept).
  The `is_external` column is rendered `isExternal`.
-/

namespace TronSaga

/-- Row of the `pks_market_address` table (`InnerAddress` in the source). -/
structure InnerAddress where
  address : String
  usdt_balance : ℚ
  is_aml_ban : Bool
  isExternal : Bool
  is_locked : Bool
deriving DecidableEq, Repr

/-- Row of the `pks_market_wallet` table (`UserWallet` in the source). -/
structure UserWallet where
  user_id : Nat
  usdt_balance : ℚ
deriving DecidableEq, Repr

/-- One allocation dict `\x7b"address": ..., "amount": ...\x7d` appended to
`selected` by `select_addresses_for_withdrawal`. -/
structure Alloc where
  address : String
  amount : ℚ
deriving DecidableEq, Repr

/-- Lookup of a wallet row by `user_id` (`select(UserWallet).where(user_id == ...)`
followed by `scalar_one_or_none`). -/
def findWallet (ws : List UserWallet) (uid : Nat) : Option UserWallet :=
  ws.find? (fun w => w.user_id == uid)

/-- Activity `check_user_balance_and_withdraw` (src/temporal_tron.py:126-149):
fetch the wallet row under a row lock; raise `ValueError` when the wallet is
missing or its balance is below the requested amount; otherwise decrement the
balance and commit.  On error nothing is committed, so only the `ok` branch
carries a new table state. -/
def check_user_balance_and_withdraw (ws : List UserWallet) (uid : Nat)
    (amount : ℚ) : Except String (List UserWallet) :=
  match findWallet ws uid with
  | none => Except.error ("Insufficient balance for user " ++ toString uid)
  | some w =>
    if w.usdt_balance < amount then
      Except.error ("Insufficient balance for user " ++ toString uid)
    else
      Except.ok (ws.map fun x =>
        if x.user_id == uid then
          { x with usdt_balance := x.usdt_balance - amount }
        else x)

/-- Activity `rollback_user_balance` (src/temporal_tron.py:152-172): fetch the
wallet row; raise when missing; otherwise add the amount back and commit. -/
def rollback_user_balance (ws : List UserWallet) (uid : Nat)
    (amount : ℚ) : Except String (List UserWallet) :=
  match findWallet ws uid with
  | none => Except.error ("User wallet not found for user " ++ toString uid)
  | some _ =>
    Except.ok (ws.map fun x =>
      if x.user_id == uid then
        { x with usdt_balance := x.usdt_balance + amount }
      else x)

/-- Candidate filter of the selection query (src/temporal_tron.py:186-195):
`usdt_balance > 0` and `is_locked == False`.  The query has no condition on
`is_aml_ban` or on `isExternal`. -/
def eligible (a : InnerAddress) : Bool :=
  decide (0 < a.usdt_balance) && !a.is_locked

/-- `ORDER BY usdt_balance DESC LIMIT 1` over a row list: one row of largest
balance (earliest such row; SQL leaves the tie order unspecified). -/
def maxByBalance : List InnerAddress → Option InnerAddress
  | [] => none
  | a :: rest =>
    match maxByBalance rest with
    | none => some a
    | some b => if b.usdt_balance > a.usdt_balance then some b else some a

/-- The whole candidate query of one loop iteration
(src/temporal_tron.py:186-197). -/
def pickTop (pool : List InnerAddress) : Option InnerAddress :=
  maxByBalance (pool.filter eligible)

/-- Committing `address.is_locked = True` for the fetched row
(src/temporal_tron.py:222). -/
def lockAddress (pool : List InnerAddress) (s : String) : List InnerAddress :=
  pool.map fun a => if a.address = s then { a with is_locked := true } else a

/-- State of `select_addresses_for_withdrawal`'s while-loop after it exits:
the committed pool, the `selected` list, `remaining`, and
`consolidation_address`. -/
structure SelState where
  pool : List InnerAddress
  selected : List Alloc
  remaining : ℚ
  consolidation : Option String
deriving Repr

/-- The `while remaining > 0` loop of `select_addresses_for_withdrawal`
(src/temporal_tron.py:184-223), one sub-transaction per iteration.  The first
fetched address only becomes `consolidation_address` and is locked; a later
address distinct from it is allocated its full balance, or the exact
remainder when that is smaller, and is locked. -/
def selLoop (pool : List InnerAddress) (selected : List Alloc)
    (remaining : ℚ) (consolidation : Option String) : SelState :=
  if 0 < remaining then
    match hpick : pickTop pool with
    | none => ⟨pool, selected, remaining, consolidation⟩
    | some addr =>
      match consolidation with
      | none =>
        selLoop (lockAddress pool addr.address) selected remaining
          (some addr.address)
      | some c =>
        if addr.address = c then
          selLoop (lockAddress pool addr.address) selected remaining (some c)
        else if addr.usdt_balance ≤ remaining then
          selLoop (lockAddress pool addr.address)
            (selected ++ [⟨addr.address, addr.usdt_balance⟩])
            (remaining - addr.usdt_balance) (some c)
        else
          selLoop (lockAddress pool addr.address)
            (selected ++ [⟨addr.address, remaining⟩]) 0 (some c)
  else ⟨pool, selected, remaining, consolidation⟩
termination_by pool.countP (fun a => !a.is_locked)
decreasing_by
  all_goals {
    have hmax : ∀ (l : List InnerAddress) (a : InnerAddress),
        maxByBalance l = some a → a ∈ l := by
      intro l
      induction l with
      | nil => intro a h; simp [maxByBalance] at h
      | cons x rest ih =>
        intro a h
        simp only [maxByBalance] at h
        cases hrest : maxByBalance rest with
        | none => rw [hrest] at h; simp at h; simp [h]
        | some b =>
          rw [hrest] at h
          by_cases hlt : b.usdt_balance > x.usdt_balance
          · simp [hlt] at h
            exact List.mem_cons_of_mem x (h ▸ ih b hrest)
          · simp [hlt] at h; simp [h]
    have hmem2 : addr ∈ pool.filter eligible := hmax _ _ hpick
    have hin : addr ∈ pool := (List.mem_filter.mp hmem2).1
    have hunlocked : addr.is_locked = false := by
      have hel := (List.mem_filter.mp hmem2).2
      simp [eligible] at hel
      exact hel.2
    have hmono : ∀ (l : List InnerAddress),
        List.countP (fun a => !a.is_locked)
          (List.map (fun a => if a.address = addr.address then
            ({ a with is_locked := true } : InnerAddress) else a) l)
          ≤ List.countP (fun a => !a.is_locked) l := by
      intro l
      induction l with
      | nil => simp
      | cons x rest ih =>
        simp only [List.map_cons, List.countP_cons]
        refine Nat.add_le_add ih ?_
        by_cases hcase : x.address = addr.address
        · simp [hcase]
        · simp [hcase]
    have key : List.countP (fun a => !a.is_locked)
        (List.map (fun a => if a.address = addr.address then
          ({ a with is_locked := true } : InnerAddress) else a) pool)
        < List.countP (fun a => !a.is_locked) pool := by
      clear hmax hmem2 hpick
      induction pool with
      | nil => simp at hin
      | cons x rest ih =>
        rcases List.mem_cons.mp hin with rfl | hmem
        · simp only [List.map_cons, List.countP_cons]
          refine add_lt_add_of_le_of_lt (hmono rest) ?_
          simp [hunlocked]
        · simp only [List.map_cons, List.countP_cons]
          refine add_lt_add_of_lt_of_le (ih hmem) ?_
          by_cases hcase : x.address = addr.address
          · simp [hcase]
          · simp [hcase]
    simpa [lockAddress] using key
  }

/-- Activity `select_addresses_for_withdrawal` (src/temporal_tron.py:174-230):
run the loop starting from an empty `selected`, `remaining = target_amount`
and no consolidation address; raise `ValueError` ("Short by remaining") when
the loop exits with `remaining > 0`, else return
`(consolidation_address, selected)`.  The error value carries the `remaining`
quoted by the message, and the committed pool is returned in both cases
because each iteration's lock was committed by its own sub-transaction. -/
def select_addresses_for_withdrawal (pool : List InnerAddress) (target : ℚ) :
    List InnerAddress × Except ℚ (Option String × List Alloc) :=
  let st := selLoop pool [] target none
  if 0 < st.remaining then (st.pool, Except.error st.remaining)
  else (st.pool, Except.ok (st.consolidation, st.selected))

/-- Sum of the allocation amounts of a `selected` list. -/
def sumAmounts (sel : List Alloc) : ℚ :=
  (sel.map Alloc.amount).sum

/-- One pool row evolved into another by the selector: unchanged, or the same
row with `is_locked` set.  Never does a row lose its lock or change any other
field. -/
def relLock (a b : InnerAddress) : Prop :=
  b = a ∨ b = { a with is_locked := true }

/-- Lookup of an address row by its address string. -/
def findAddr (pool : List InnerAddress) (s : String) : Option InnerAddress :=
  pool.find? (fun a => a.address == s)

/-- Post-broadcast bookkeeping of `withdraw_usdt_to_external`
(src/temporal_tron.py:250-267): `UPDATE pks_market_address SET usdt_balance =
usdt_balance - amount WHERE address = from_address`.  Unconditional: no
insufficiency check and no failure branch. -/
def applyAllocationDebit (pool : List InnerAddress) (src : String)
    (amount : ℚ) : List InnerAddress :=
  pool.map fun a =>
    if a.address = src then { a with usdt_balance := a.usdt_balance - amount }
    else a

/-- Activity `unlock_addresses` (src/temporal_tron.py:276-287):
`UPDATE pks_market_address SET is_locked = false WHERE address IN addresses`. -/
def unlock_addresses (pool : List InnerAddress) (addrs : List String) :
    List InnerAddress :=
  pool.map fun a =>
    if addrs.contains a.address then { a with is_locked := false } else a

/-- Truncation toward zero, the behaviour of Python's `int()` on a `Decimal`. -/
def truncToward0 (q : ℚ) : ℤ :=
  q.num.tdiv q.den

/-- The amount put on the wire by `send_tron_transaction`
(src/temporal_tron.py:111 and 119): `int(amount * Decimal(1_000_000))`. -/
def toChainBaseUnits (amount : ℚ) : ℤ :=
  truncToward0 (amount * 1000000)

/-! ### Step equations for the selection loop -/

/-- Loop exit: `remaining ≤ 0` never enters the loop body. -/
theorem selLoop_exit_nonpos (pool : List InnerAddress) (sel : List Alloc)
    (rem : ℚ) (cons : Option String) (h : ¬ 0 < rem) :
    selLoop pool sel rem cons = ⟨pool, sel, rem, cons⟩ := by
  rw [selLoop.eq_def]
  simp [h]

/-- Loop exit: no candidate row breaks out of the loop. -/
theorem selLoop_exit_none (pool : List InnerAddress) (sel : List Alloc)
    (rem : ℚ) (cons : Option String) (h : 0 < rem)
    (hp : pickTop pool = none) :
    selLoop pool sel rem cons = ⟨pool, sel, rem, cons⟩ := by
  rw [selLoop.eq_def, if_pos h]
  split
  · rfl
  · rename_i addr' heq
    rw [hp] at heq
    cases heq

/-- First iteration: the fetched address becomes the consolidation address,
is locked, and nothing is allocated. -/
theorem selLoop_step_first (pool : List InnerAddress) (sel : List Alloc)
    (rem : ℚ) (addr : InnerAddress) (h : 0 < rem)
    (hp : pickTop pool = some addr) :
    selLoop pool sel rem none =
      selLoop (lockAddress pool addr.address) sel rem (some addr.address) := by
  rw [selLoop.eq_def, if_pos h]
  split
  · rename_i heq
    rw [hp] at heq
    cases heq
  · rename_i addr' heq
    rw [hp] at heq
    injection heq with h2
    subst h2
    rfl

/-- Re-fetch of the consolidation address: relocked, nothing allocated. -/
theorem selLoop_step_consolidation (pool : List InnerAddress) (sel : List Alloc)
    (rem : ℚ) (addr : InnerAddress) (c : String) (h : 0 < rem)
    (hp : pickTop pool = some addr) (hc : addr.address = c) :
    selLoop pool sel rem (some c) =
      selLoop (lockAddress pool addr.address) sel rem (some c) := by
  rw [selLoop.eq_def, if_pos h]
  split
  · rename_i heq
    rw [hp] at heq
    cases heq
  · rename_i addr' heq
    rw [hp] at heq
    injection heq with h2
    subst h2
    show (if addr.address = c then
        selLoop (lockAddress pool addr.address) sel rem (some c)
      else if addr.usdt_balance ≤ rem then
        selLoop (lockAddress pool addr.address)
          (sel ++ [⟨addr.address, addr.usdt_balance⟩])
          (rem - addr.usdt_balance) (some c)
      else
        selLoop (lockAddress pool addr.address)
          (sel ++ [⟨addr.address, rem⟩]) 0 (some c)) = _
    rw [if_pos hc]

/-- Allocation of an address's full balance when it does not exceed the
remainder. -/
theorem selLoop_step_full (pool : List InnerAddress) (sel : List Alloc)
    (rem : ℚ) (addr : InnerAddress) (c : String) (h : 0 < rem)
    (hp : pickTop pool = some addr) (hne : ¬ addr.address = c)
    (hle : addr.usdt_balance ≤ rem) :
    selLoop pool sel rem (some c) =
      selLoop (lockAddress pool addr.address)
        (sel ++ [⟨addr.address, addr.usdt_balance⟩])
        (rem - addr.usdt_balance) (some c) := by
  rw [selLoop.eq_def, if_pos h]
  split
  · rename_i heq
    rw [hp] at heq
    cases heq
  · rename_i addr' heq
    rw [hp] at heq
    injection heq with h2
    subst h2
    show (if addr.address = c then
        selLoop (lockAddress pool addr.address) sel rem (some c)
      else if addr.usdt_balance ≤ rem then
        selLoop (lockAddress pool addr.address)
          (sel ++ [⟨addr.address, addr.usdt_balance⟩])
          (rem - addr.usdt_balance) (some c)
      else
        selLoop (lockAddress pool addr.address)
          (sel ++ [⟨addr.address, rem⟩]) 0 (some c)) = _
    rw [if_neg hne, if_pos hle]

/-- Allocation of exactly the remainder when the address's balance exceeds
it; the remainder becomes zero. -/
theorem selLoop_step_remainder (pool : List InnerAddress) (sel : List Alloc)
    (rem : ℚ) (addr : InnerAddress) (c : String) (h : 0 < rem)
    (hp : pickTop pool = some addr) (hne : ¬ addr.address = c)
    (hgt : ¬ addr.usdt_balance ≤ rem) :
    selLoop pool sel rem (some c) =
      selLoop (lockAddress pool addr.address)
        (sel ++ [⟨addr.address, rem⟩]) 0 (some c) := by
  rw [selLoop.eq_def, if_pos h]
  split
  · rename_i heq
    rw [hp] at heq
    cases heq
  · rename_i addr' heq
    rw [hp] at heq
    injection heq with h2
    subst h2
    show (if addr.address = c then
        selLoop (lockAddress pool addr.address) sel rem (some c)
      else if addr.usdt_balance ≤ rem then
        selLoop (lockAddress pool addr.address)
          (sel ++ [⟨addr.address, addr.usdt_balance⟩])
          (rem - addr.usdt_balance) (some c)
      else
        selLoop (lockAddress pool addr.address)
          (sel ++ [⟨addr.address, rem⟩]) 0 (some c)) = _
    rw [if_neg hne, if_neg hgt]

/-! ### Invariants of the selection loop -/

theorem sumAmounts_append (sel : List Alloc) (a : Alloc) :
    sumAmounts (sel ++ [a]) = sumAmounts sel + a.amount := by
  simp [sumAmounts]

/-- The loop preserves `sumAmounts selected + remaining`. -/
theorem selLoop_sum (pool : List InnerAddress) (sel : List Alloc) (rem : ℚ)
    (cons : Option String) :
    sumAmounts (selLoop pool sel rem cons).selected
      + (selLoop pool sel rem cons).remaining = sumAmounts sel + rem := by
  induction pool, sel, rem, cons using selLoop.induct with
  | case1 pool sel rem cons h hpick =>
    rw [selLoop_exit_none pool sel rem cons h hpick]
  | case2 pool sel rem h addr hpick ih =>
    rw [selLoop_step_first pool sel rem addr h hpick]
    exact ih
  | case3 pool sel rem h addr hpick ih =>
    rw [selLoop_step_consolidation pool sel rem addr addr.address h hpick rfl]
    exact ih
  | case4 pool sel rem h addr hpick c hne hle ih =>
    rw [selLoop_step_full pool sel rem addr c h hpick hne hle]
    rw [ih, sumAmounts_append]
    ring
  | case5 pool sel rem h addr hpick c hne hgt ih =>
    rw [selLoop_step_remainder pool sel rem addr c h hpick hne hgt]
    rw [ih, sumAmounts_append]
    ring
  | case6 pool sel rem cons h =>
    rw [selLoop_exit_nonpos pool sel rem cons h]

/-- The loop's remainder never becomes negative when it starts nonnegative:
the loop subtracts at most the current remainder. -/
theorem selLoop_remaining_nonneg (pool : List InnerAddress) (sel : List Alloc)
    (rem : ℚ) (cons : Option String) :
    0 ≤ rem → 0 ≤ (selLoop pool sel rem cons).remaining := by
  induction pool, sel, rem, cons using selLoop.induct with
  | case1 pool sel rem cons h hpick =>
    intro h0
    rw [selLoop_exit_none pool sel rem cons h hpick]
    exact h0
  | case2 pool sel rem h addr hpick ih =>
    intro h0
    rw [selLoop_step_first pool sel rem addr h hpick]
    exact ih h0
  | case3 pool sel rem h addr hpick ih =>
    intro h0
    rw [selLoop_step_consolidation pool sel rem addr addr.address h hpick rfl]
    exact ih h0
  | case4 pool sel rem h addr hpick c hne hle ih =>
    intro h0
    rw [selLoop_step_full pool sel rem addr c h hpick hne hle]
    exact ih (by linarith)
  | case5 pool sel rem h addr hpick c hne hgt ih =>
    intro h0
    rw [selLoop_step_remainder pool sel rem addr c h hpick hne hgt]
    exact ih le_rfl
  | case6 pool sel rem cons h =>
    intro h0
    rw [selLoop_exit_nonpos pool sel rem cons h]
    exact h0

theorem forall₂_relLock_refl (l : List InnerAddress) :
    List.Forall₂ relLock l l := by
  induction l with
  | nil => exact List.Forall₂.nil
  | cons x rest ih => exact List.Forall₂.cons (Or.inl rfl) ih

theorem relLock_lockAddress (pool : List InnerAddress) (s : String) :
    List.Forall₂ relLock pool (lockAddress pool s) := by
  induction pool with
  | nil => exact List.Forall₂.nil
  | cons x rest ih =>
    simp only [lockAddress, List.map_cons]
    refine List.Forall₂.cons ?_ ih
    by_cases hx : x.address = s
    · exact Or.inr (by simp [hx])
    · exact Or.inl (by simp [hx])

theorem relLock_trans {a b c : InnerAddress} (h1 : relLock a b)
    (h2 : relLock b c) : relLock a c := by
  rcases h1 with rfl | rfl
  · exact h2
  · rcases h2 with rfl | h2
    · exact Or.inr rfl
    · rw [h2]
      exact Or.inr rfl

theorem forall₂_relLock_trans {l m n : List InnerAddress}
    (h1 : List.Forall₂ relLock l m) (h2 : List.Forall₂ relLock m n) :
    List.Forall₂ relLock l n := by
  induction h1 generalizing n with
  | nil =>
    cases h2
    exact List.Forall₂.nil
  | cons hab htail ih =>
    cases h2 with
    | cons hbc htl => exact List.Forall₂.cons (relLock_trans hab hbc) (ih htl)

/-- The loop only ever sets `is_locked`; every row of the final pool is the
corresponding initial row, unchanged or with its lock set.  In particular the
loop never releases a lock. -/
theorem selLoop_locks_monotone (pool : List InnerAddress) (sel : List Alloc)
    (rem : ℚ) (cons : Option String) :
    List.Forall₂ relLock pool (selLoop pool sel rem cons).pool := by
  induction pool, sel, rem, cons using selLoop.induct with
  | case1 pool sel rem cons h hpick =>
    rw [selLoop_exit_none pool sel rem cons h hpick]
    exact forall₂_relLock_refl pool
  | case2 pool sel rem h addr hpick ih =>
    rw [selLoop_step_first pool sel rem addr h hpick]
    exact forall₂_relLock_trans (relLock_lockAddress pool addr.address) ih
  | case3 pool sel rem h addr hpick ih =>
    rw [selLoop_step_consolidation pool sel rem addr addr.address h hpick rfl]
    exact forall₂_relLock_trans (relLock_lockAddress pool addr.address) ih
  | case4 pool sel rem h addr hpick c hne hle ih =>
    rw [selLoop_step_full pool sel rem addr c h hpick hne hle]
    exact forall₂_relLock_trans (relLock_lockAddress pool addr.address) ih
  | case5 pool sel rem h addr hpick c hne hgt ih =>
    rw [selLoop_step_remainder pool sel rem addr c h hpick hne hgt]
    exact forall₂_relLock_trans (relLock_lockAddress pool addr.address) ih
  | case6 pool sel rem cons h =>
    rw [selLoop_exit_nonpos pool sel rem cons h]
    exact forall₂_relLock_refl pool

/-! ### Unfolding equations for the wallet activities -/

theorem check_eq_of_found (ws : List UserWallet) (uid : Nat) (amount : ℚ)
    (w : UserWallet) (hfw : findWallet ws uid = some w) :
    check_user_balance_and_withdraw ws uid amount
      = if w.usdt_balance < amount then
          Except.error ("Insufficient balance for user " ++ toString uid)
        else
          Except.ok (ws.map fun x =>
            if x.user_id == uid then
              { x with usdt_balance := x.usdt_balance - amount }
            else x) := by
  unfold check_user_balance_and_withdraw
  rw [hfw]

theorem check_eq_of_missing (ws : List UserWallet) (uid : Nat) (amount : ℚ)
    (hfw : findWallet ws uid = none) :
    check_user_balance_and_withdraw ws uid amount
      = Except.error ("Insufficient balance for user " ++ toString uid) := by
  unfold check_user_balance_and_withdraw
  rw [hfw]

theorem rollback_eq_of_found (ws : List UserWallet) (uid : Nat) (amount : ℚ)
    (w : UserWallet) (hfw : findWallet ws uid = some w) :
    rollback_user_balance ws uid amount
      = Except.ok (ws.map fun x =>
          if x.user_id == uid then
            { x with usdt_balance := x.usdt_balance + amount }
          else x) := by
  unfold rollback_user_balance
  rw [hfw]

/-! ### Row-lookup after a keyed map update -/

theorem findWallet_update (ws : List UserWallet) (uid : Nat)
    (g : UserWallet → UserWallet) (hg : ∀ x, (g x).user_id = x.user_id)
    (w : UserWallet) (hw : findWallet ws uid = some w) :
    findWallet (ws.map fun x => if x.user_id == uid then g x else x) uid
      = some (g w) := by
  induction ws with
  | nil => simp [findWallet] at hw
  | cons x rest ih =>
    simp only [findWallet, List.map_cons] at hw ⊢
    by_cases hx : (x.user_id == uid) = true
    · rw [List.find?_cons_of_pos (p := fun v : UserWallet => v.user_id == uid)
        _ hx] at hw
      injection hw with h2
      subst h2
      rw [if_pos hx]
      have hx2 : ((g x).user_id == uid) = true := by
        rw [hg x]
        exact hx
      rw [List.find?_cons_of_pos (p := fun v : UserWallet => v.user_id == uid)
        _ hx2]
    · rw [List.find?_cons_of_neg (p := fun v : UserWallet => v.user_id == uid)
        _ hx] at hw
      rw [if_neg hx, List.find?_cons_of_neg
        (p := fun v : UserWallet => v.user_id == uid) _ hx]
      exact ih hw

theorem findAddr_update (pool : List InnerAddress) (s : String)
    (g : InnerAddress → InnerAddress) (hg : ∀ x, (g x).address = x.address)
    (a : InnerAddress) (ha : findAddr pool s = some a) :
    findAddr (pool.map fun x => if x.address = s then g x else x) s
      = some (g a) := by
  induction pool with
  | nil => simp [findAddr] at ha
  | cons x rest ih =>
    simp only [findAddr, List.map_cons] at ha ⊢
    by_cases hx : x.address = s
    · have hx1 : (x.address == s) = true := by simp [hx]
      rw [List.find?_cons_of_pos (p := fun y : InnerAddress => y.address == s)
        _ hx1] at ha
      injection ha with h2
      subst h2
      rw [if_pos hx]
      have hx2 : ((g x).address == s) = true := by simp [hg x, hx]
      rw [List.find?_cons_of_pos (p := fun y : InnerAddress => y.address == s)
        _ hx2]
    · have hx1 : ¬ (x.address == s) = true := by simp [hx]
      rw [List.find?_cons_of_neg (p := fun y : InnerAddress => y.address == s)
        _ hx1] at ha
      rw [if_neg hx, List.find?_cons_of_neg
        (p := fun y : InnerAddress => y.address == s) _ hx1]
      exact ih ha

/-! ### Claims -/

/-- C1: the claim says an AML-banned or externally-flagged address is never
locked or allocated by `select_addresses_for_withdrawal`.  The candidate
query (src/temporal_tron.py:186-195) filters only on positive balance and
`is_locked`, so the run below locks the AML-banned address "B" and allocates
50 from it. -/
theorem C1_banned_address_selected :
    select_addresses_for_withdrawal
        [⟨"A", 100, false, false, false⟩, ⟨"B", 60, true, false, false⟩] 50
      = ([⟨"A", 100, false, false, true⟩, ⟨"B", 60, true, false, true⟩],
          Except.ok (some "A", [⟨"B", 50⟩])) ∧
    (⟨"B", 60, true, false, false⟩ : InnerAddress).is_aml_ban = true := by
  refine ⟨?_, rfl⟩
  have hp1 : pickTop [(⟨"A", 100, false, false, false⟩ : InnerAddress),
      ⟨"B", 60, true, false, false⟩]
      = some ⟨"A", 100, false, false, false⟩ := by decide
  have hp2 : pickTop [(⟨"A", 100, false, false, true⟩ : InnerAddress),
      ⟨"B", 60, true, false, false⟩]
      = some ⟨"B", 60, true, false, false⟩ := by decide
  have e1 : selLoop [(⟨"A", 100, false, false, false⟩ : InnerAddress),
        ⟨"B", 60, true, false, false⟩] [] 50 none
      = selLoop [(⟨"A", 100, false, false, true⟩ : InnerAddress),
        ⟨"B", 60, true, false, false⟩] [] 50 (some "A") :=
    selLoop_step_first _ _ _ _ (by norm_num) hp1
  have e2 : selLoop [(⟨"A", 100, false, false, true⟩ : InnerAddress),
        ⟨"B", 60, true, false, false⟩] [] 50 (some "A")
      = selLoop [(⟨"A", 100, false, false, true⟩ : InnerAddress),
        ⟨"B", 60, true, false, true⟩] [⟨"B", 50⟩] 0 (some "A") :=
    selLoop_step_remainder _ _ _ _ _ (by norm_num) hp2 (by decide) (by norm_num)
  have e3 : selLoop [(⟨"A", 100, false, false, true⟩ : InnerAddress),
        ⟨"B", 60, true, false, true⟩] [⟨"B", 50⟩] 0 (some "A")
      = ⟨[⟨"A", 100, false, false, true⟩, ⟨"B", 60, true, false, true⟩],
          [⟨"B", 50⟩], 0, some "A"⟩ :=
    selLoop_exit_nonpos _ _ _ _ (by norm_num)
  simp only [select_addresses_for_withdrawal, e1, e2, e3]
  norm_num

/-- C2: for every selection that returns successfully with the remainder at
zero (given a nonnegative requested amount, the remainder of a successful run
is exactly zero), the allocation amounts sum to the requested target, with no
rounding loss. -/
theorem C2_allocations_sum_to_target (pool : List InnerAddress) (target : ℚ)
    (pool' : List InnerAddress) (cons : Option String) (sel : List Alloc)
    (h0 : 0 ≤ target)
    (h : select_addresses_for_withdrawal pool target
      = (pool', Except.ok (cons, sel))) :
    sumAmounts sel = target := by
  simp only [select_addresses_for_withdrawal] at h
  by_cases hrem : 0 < (selLoop pool [] target none).remaining
  · rw [if_pos hrem, Prod.mk.injEq] at h
    exact absurd h.2 (by simp)
  · rw [if_neg hrem, Prod.mk.injEq, Except.ok.injEq, Prod.mk.injEq] at h
    obtain ⟨hpool, hcons, hsel⟩ := h
    have hsum := selLoop_sum pool [] target none
    have hnn := selLoop_remaining_nonneg pool [] target none h0
    have hzero : (selLoop pool [] target none).remaining = 0 :=
      le_antisymm (not_lt.mp hrem) hnn
    rw [← hsel]
    rw [hzero] at hsum
    have hnil : sumAmounts ([] : List Alloc) = 0 := rfl
    rw [hnil] at hsum
    linarith

/-- C3: the claim says that when the first (highest-balance) eligible
candidate's balance covers the full amount, it becomes the sole allocation.
In the code the first fetched address only becomes the consolidation address
and is locked without any allocation and without decreasing the remainder
(src/temporal_tron.py:202-203), so the run below, with a single address of
balance 80 for a request of 60, fails with "Short by 60" instead. -/
theorem C3_first_candidate_never_allocated :
    select_addresses_for_withdrawal [⟨"A", 80, false, false, false⟩] 60
      = ([⟨"A", 80, false, false, true⟩], Except.error 60) := by
  have hp1 : pickTop [(⟨"A", 80, false, false, false⟩ : InnerAddress)]
      = some ⟨"A", 80, false, false, false⟩ := by decide
  have hp2 : pickTop [(⟨"A", 80, false, false, true⟩ : InnerAddress)]
      = none := by decide
  have e1 : selLoop [(⟨"A", 80, false, false, false⟩ : InnerAddress)] [] 60
        none
      = selLoop [(⟨"A", 80, false, false, true⟩ : InnerAddress)] [] 60
          (some "A") :=
    selLoop_step_first _ _ _ _ (by norm_num) hp1
  have e2 : selLoop [(⟨"A", 80, false, false, true⟩ : InnerAddress)] [] 60
        (some "A")
      = ⟨[⟨"A", 80, false, false, true⟩], [], 60, some "A"⟩ :=
    selLoop_exit_none _ _ _ _ (by norm_num) hp2
  simp only [select_addresses_for_withdrawal, e1, e2]
  norm_num

/-- C4: when the wallet row exists, a debit with sufficient balance succeeds
and decreases the balance by exactly the requested amount; an insufficient
balance raises the insufficient-balance error and commits nothing (the
returned state exists only in the success branch). -/
theorem C4_debit_wallet (ws : List UserWallet) (uid : Nat) (amount : ℚ)
    (w : UserWallet) (hw : findWallet ws uid = some w) :
    (amount ≤ w.usdt_balance →
      ∃ ws', check_user_balance_and_withdraw ws uid amount = Except.ok ws' ∧
        findWallet ws' uid
          = some { w with usdt_balance := w.usdt_balance - amount }) ∧
    (w.usdt_balance < amount →
      check_user_balance_and_withdraw ws uid amount
        = Except.error ("Insufficient balance for user " ++ toString uid)) := by
  constructor
  · intro hle
    refine ⟨ws.map fun x =>
        if x.user_id == uid then
          { x with usdt_balance := x.usdt_balance - amount }
        else x, ?_, ?_⟩
    · rw [check_eq_of_found ws uid amount w hw, if_neg (not_lt.mpr hle)]
    · exact findWallet_update ws uid
        (fun x => { x with usdt_balance := x.usdt_balance - amount })
        (fun x => rfl) w hw
  · intro hlt
    rw [check_eq_of_found ws uid amount w hw, if_pos hlt]

/-- C5: a selection that raises the insufficient-funds error reports a
positive shortBy equal to the requested amount minus what was already
allocated, and the committed pool it leaves behind is the loop's final pool,
in which every row is its initial self unchanged or with its lock set — the
selector never releases a lock on failure. -/
theorem C5_failure_keeps_locks (pool : List InnerAddress) (target : ℚ)
    (pool' : List InnerAddress) (shortBy : ℚ)
    (h : select_addresses_for_withdrawal pool target
      = (pool', Except.error shortBy)) :
    0 < shortBy ∧
    shortBy = target - sumAmounts (selLoop pool [] target none).selected ∧
    pool' = (selLoop pool [] target none).pool ∧
    List.Forall₂ relLock pool pool' := by
  simp only [select_addresses_for_withdrawal] at h
  by_cases hrem : 0 < (selLoop pool [] target none).remaining
  · rw [if_pos hrem, Prod.mk.injEq, Except.error.injEq] at h
    obtain ⟨hp, hs⟩ := h
    refine ⟨?_, ?_, hp.symm, ?_⟩
    · rw [← hs]
      exact hrem
    · rw [← hs]
      have hsum := selLoop_sum pool [] target none
      have hnil : sumAmounts ([] : List Alloc) = 0 := rfl
      rw [hnil] at hsum
      linarith
    · rw [← hp]
      exact selLoop_locks_monotone pool [] target none
  · rw [if_neg hrem, Prod.mk.injEq] at h
    exact absurd h.2 (by simp)

/-- C6: a successful debit followed by the compensation credit of the same
amount for the same user restores the wallet table exactly. -/
theorem C6_debit_then_rollback (ws : List UserWallet) (uid : Nat)
    (amount : ℚ) (ws' : List UserWallet)
    (h : check_user_balance_and_withdraw ws uid amount = Except.ok ws') :
    rollback_user_balance ws' uid amount = Except.ok ws := by
  cases hfw : findWallet ws uid with
  | none =>
    rw [check_eq_of_missing ws uid amount hfw] at h
    exact absurd h (by simp)
  | some w =>
    rw [check_eq_of_found ws uid amount w hfw] at h
    by_cases hlt : w.usdt_balance < amount
    · rw [if_pos hlt] at h
      exact absurd h (by simp)
    · rw [if_neg hlt] at h
      injection h with h2
      subst h2
      rw [rollback_eq_of_found _ uid amount _
        (findWallet_update ws uid
          (fun x => { x with usdt_balance := x.usdt_balance - amount })
          (fun x => rfl) w hfw)]
      rw [List.map_map]
      have hpt : ∀ x ∈ ws,
          ((fun y : UserWallet => if y.user_id == uid then
              { y with usdt_balance := y.usdt_balance + amount } else y) ∘
            fun y : UserWallet => if y.user_id == uid then
              { y with usdt_balance := y.usdt_balance - amount } else y) x
            = id x := by
        intro x _
        simp only [Function.comp_apply, id_eq]
        by_cases hx : (x.user_id == uid) = true
        · rw [if_pos hx]
          rw [if_pos (show (({ x with usdt_balance := x.usdt_balance - amount }
              : UserWallet).user_id == uid) = true from hx)]
          cases x with
          | mk xid xbal =>
            simp only [UserWallet.mk.injEq]
            exact ⟨trivial, by ring⟩
        · rw [if_neg hx, if_neg hx]
      rw [List.map_congr_left hpt, List.map_id]

/-- C7 (amended): the post-broadcast bookkeeping decreases the source
address's balance by exactly the amount, unconditionally — there is no
insufficiency check and no failure branch, so an insufficient balance simply
goes negative. -/
theorem C7_allocation_debit_unconditional (pool : List InnerAddress)
    (s : String) (amount : ℚ) (a : InnerAddress)
    (ha : findAddr pool s = some a) :
    findAddr (applyAllocationDebit pool s amount) s
      = some { a with usdt_balance := a.usdt_balance - amount } := by
  unfold applyAllocationDebit
  exact findAddr_update pool s
    (fun x => { x with usdt_balance := x.usdt_balance - amount })
    (fun x => rfl) a ha

/-- C7 counterexample: the claim says the update fails with an
insufficient-address-balance error, leaving the balance unchanged, whenever
the balance is below the amount.  Debiting 60 from an address holding 10
neither fails nor leaves the row unchanged: the balance becomes -50. -/
theorem C7_counterexample :
    (10 : ℚ) < 60 ∧
    applyAllocationDebit [⟨"A", 10, false, false, false⟩] "A" 60
      ≠ [⟨"A", 10, false, false, false⟩] ∧
    applyAllocationDebit [⟨"A", 10, false, false, false⟩] "A" 60
      = [⟨"A", -50, false, false, false⟩] := by
  have h3 : applyAllocationDebit [⟨"A", 10, false, false, false⟩] "A" 60
      = [⟨"A", -50, false, false, false⟩] := by
    norm_num [applyAllocationDebit]
  refine ⟨by norm_num, ?_, h3⟩
  rw [h3]
  norm_num

/-- C7 witness: the amended theorem evaluated where the balance is
insufficient. -/
theorem C7_witness :
    findAddr (applyAllocationDebit [⟨"A", 10, false, false, false⟩] "A" 60)
        "A"
      = some ⟨"A", -50, false, false, false⟩ := by
  have h := C7_allocation_debit_unconditional
    [⟨"A", 10, false, false, false⟩] "A" 60 ⟨"A", 10, false, false, false⟩
    (by decide)
  rw [h]
  norm_num

/-- C8 counterexample: the claim says a value whose scaling by 10^6 is not an
integer fails validation.  `int(amount * Decimal(1_000_000))` never fails: at
amount 1/2000000 the scaled value is the non-integer 1/2 and the conversion
silently truncates it to 0, losing precision. -/
theorem C8_counterexample :
    (((1 : ℚ) / 2000000) * 1000000).den ≠ 1 ∧
    toChainBaseUnits ((1 : ℚ) / 2000000) = 0 ∧
    (toChainBaseUnits ((1 : ℚ) / 2000000) : ℚ)
      ≠ ((1 : ℚ) / 2000000) * 1000000 := by
  have hval : ((1 : ℚ) / 2000000) * 1000000 = 1 / 2 := by norm_num
  have hhalf : ((1 : ℚ) / 2) = (⟨1, 2, by norm_num, by decide⟩ : ℚ) := by
    rw [Rat.mk'_eq_divInt, Rat.divInt_eq_div]
    norm_num
  have hnum : ((1 : ℚ) / 2).num = 1 := by rw [hhalf]
  have hden : ((1 : ℚ) / 2).den = 2 := by rw [hhalf]
  have hb : toChainBaseUnits ((1 : ℚ) / 2000000) = 0 := by
    unfold toChainBaseUnits truncToward0
    rw [hval, hnum, hden]
    decide
  refine ⟨?_, hb, ?_⟩
  · rw [hval, hden]
    decide
  · rw [hb, hval]
    norm_num

/-- C8 (amended): the conversion to chain base units never fails; when the
scaled amount is an integer the conversion is exact (no loss or gain of
precision), otherwise it silently truncates toward zero. -/
theorem C8_exact_scaling (q : ℚ) (h : (q * 1000000).den = 1) :
    (toChainBaseUnits q : ℚ) = q * 1000000 := by
  unfold toChainBaseUnits truncToward0
  rw [h]
  simp only [Nat.cast_one, Int.tdiv_one]
  exact Rat.coe_int_num_of_den_eq_one h

/-- C8 witness: 3 scales exactly to 3000000 base units. -/
theorem C8_exact_scaling_witness :
    ((3 : ℚ) * 1000000).den = 1 ∧
    (toChainBaseUnits (3 : ℚ) : ℚ) = (3 : ℚ) * 1000000 := by
  have hden : ((3 : ℚ) * 1000000).den = 1 := by
    have h1 : (3 : ℚ) * 1000000 = ((3000000 : ℤ) : ℚ) := by norm_num
    rw [h1, Rat.den_intCast]
  exact ⟨hden, C8_exact_scaling 3 hden⟩

/-- C9: releasing locks is idempotent, and afterwards every named address in
the pool is unlocked regardless of its previous lock state. -/
theorem C9_release_lock_idempotent (pool : List InnerAddress)
    (addrs : List String) :
    unlock_addresses (unlock_addresses pool addrs) addrs
        = unlock_addresses pool addrs ∧
    (unlock_addresses pool addrs).all
        (fun a => !(addrs.contains a.address) || !a.is_locked) = true := by
  constructor
  · unfold unlock_addresses
    rw [List.map_map]
    apply List.map_congr_left
    intro x _
    simp only [Function.comp_apply]
    by_cases hx : x.address ∈ addrs
    · simp [hx]
    · simp [hx]
  · rw [List.all_eq_true]
    intro a ha
    unfold unlock_addresses at ha
    obtain ⟨x, _, rfl⟩ := List.mem_map.mp ha
    by_cases hx : x.address ∈ addrs
    · simp [hx]
    · simp [hx]

/-- C10: a nonpositive requested amount never enters the selection loop: the
activity returns no consolidation address and an empty allocation list, locks
nothing and raises nothing. -/
theorem C10_nonpositive_target (pool : List InnerAddress) (target : ℚ)
    (h : target ≤ 0) :
    select_addresses_for_withdrawal pool target
      = (pool, Except.ok (none, [])) := by
  have h0 : ¬ 0 < target := not_lt.mpr h
  simp only [select_addresses_for_withdrawal,
    selLoop_exit_nonpos pool [] target none h0]
  simp [h0]

/-! ### Witnesses -/

theorem C2_witness : sumAmounts [(⟨"B", 30⟩ : Alloc)] = 30 := by
  have hp1 : pickTop [(⟨"A", 80, false, false, false⟩ : InnerAddress),
      ⟨"B", 50, false, false, false⟩]
      = some ⟨"A", 80, false, false, false⟩ := by decide
  have hp2 : pickTop [(⟨"A", 80, false, false, true⟩ : InnerAddress),
      ⟨"B", 50, false, false, false⟩]
      = some ⟨"B", 50, false, false, false⟩ := by decide
  have e1 : selLoop [(⟨"A", 80, false, false, false⟩ : InnerAddress),
        ⟨"B", 50, false, false, false⟩] [] 30 none
      = selLoop [(⟨"A", 80, false, false, true⟩ : InnerAddress),
        ⟨"B", 50, false, false, false⟩] [] 30 (some "A") :=
    selLoop_step_first _ _ _ _ (by norm_num) hp1
  have e2 : selLoop [(⟨"A", 80, false, false, true⟩ : InnerAddress),
        ⟨"B", 50, false, false, false⟩] [] 30 (some "A")
      = selLoop [(⟨"A", 80, false, false, true⟩ : InnerAddress),
        ⟨"B", 50, false, false, true⟩] [⟨"B", 30⟩] 0 (some "A") :=
    selLoop_step_remainder _ _ _ _ _ (by norm_num) hp2 (by decide) (by norm_num)
  have e3 : selLoop [(⟨"A", 80, false, false, true⟩ : InnerAddress),
        ⟨"B", 50, false, false, true⟩] [⟨"B", 30⟩] 0 (some "A")
      = ⟨[⟨"A", 80, false, false, true⟩, ⟨"B", 50, false, false, true⟩],
          [⟨"B", 30⟩], 0, some "A"⟩ :=
    selLoop_exit_nonpos _ _ _ _ (by norm_num)
  exact C2_allocations_sum_to_target
    [⟨"A", 80, false, false, false⟩, ⟨"B", 50, false, false, false⟩] 30
    [⟨"A", 80, false, false, true⟩, ⟨"B", 50, false, false, true⟩]
    (some "A") [⟨"B", 30⟩] (by norm_num)
    (by simp only [select_addresses_for_withdrawal, e1, e2, e3]; norm_num)

theorem C4_witness :
    ∃ ws', check_user_balance_and_withdraw [⟨7, 100⟩] 7 60 = Except.ok ws' ∧
      findWallet ws' 7 = some ⟨7, 40⟩ := by
  obtain ⟨ws', h1, h2⟩ :=
    (C4_debit_wallet [⟨7, 100⟩] 7 60 ⟨7, 100⟩ (by decide)).1 (by norm_num)
  refine ⟨ws', h1, ?_⟩
  rw [h2]
  norm_num

theorem C5_witness :
    0 < (9 : ℚ) ∧
    (9 : ℚ) = 9 - sumAmounts
        (selLoop [(⟨"C", 5, false, false, false⟩ : InnerAddress)] [] 9
          none).selected ∧
    [(⟨"C", 5, false, false, true⟩ : InnerAddress)]
      = (selLoop [(⟨"C", 5, false, false, false⟩ : InnerAddress)] [] 9
          none).pool ∧
    List.Forall₂ relLock [(⟨"C", 5, false, false, false⟩ : InnerAddress)]
      [⟨"C", 5, false, false, true⟩] := by
  have hp1 : pickTop [(⟨"C", 5, false, false, false⟩ : InnerAddress)]
      = some ⟨"C", 5, false, false, false⟩ := by decide
  have hp2 : pickTop [(⟨"C", 5, false, false, true⟩ : InnerAddress)]
      = none := by decide
  have e1 : selLoop [(⟨"C", 5, false, false, false⟩ : InnerAddress)] [] 9 none
      = selLoop [(⟨"C", 5, false, false, true⟩ : InnerAddress)] [] 9
          (some "C") :=
    selLoop_step_first _ _ _ _ (by norm_num) hp1
  have e2 : selLoop [(⟨"C", 5, false, false, true⟩ : InnerAddress)] [] 9
        (some "C")
      = ⟨[⟨"C", 5, false, false, true⟩], [], 9, some "C"⟩ :=
    selLoop_exit_none _ _ _ _ (by norm_num) hp2
  exact C5_failure_keeps_locks
    [⟨"C", 5, false, false, false⟩] 9 [⟨"C", 5, false, false, true⟩] 9
    (by simp only [select_addresses_for_withdrawal, e1, e2]; norm_num)

theorem C6_witness :
    rollback_user_balance [⟨3, 30⟩] 3 20 = Except.ok [⟨3, 50⟩] := by
  have h : check_user_balance_and_withdraw [⟨3, 50⟩] 3 20
      = Except.ok [⟨3, 30⟩] := by
    rw [check_eq_of_found [⟨3, 50⟩] 3 20 ⟨3, 50⟩ (by decide),
      if_neg (by norm_num)]
    norm_num
  exact C6_debit_then_rollback [⟨3, 50⟩] 3 20 [⟨3, 30⟩] h

theorem C10_witness :
    select_addresses_for_withdrawal [] 0 = ([], Except.ok (none, [])) :=
  C10_nonpositive_target [] 0 le_rfl

end TronSaga
